import Mathlib

/-
  Verification development for the hybrid memory subsystem of the
  chatbot-cli-map repository (src/hybrid_memory_service.py and
  src/backend/memory_service.py).

  The Python code is shallowly embedded: pure functions become Lean
  functions, the stateful service becomes explicit state passing,
  datetime instants become natural-number ticks (seconds), Python floats
  become exact rationals, and regular-expression search over the fixed
  pattern tables becomes an executable matcher for the small pattern
  language those tables actually use (word-boundary literals, character
  classes, alpha/digit runs, and a trailing question mark).
-/

set_option maxHeartbeats 1000000

namespace ChatbotMemory

/-- Word characters for the regex word boundary. Python re uses
[a-zA-Z0-9_] plus unicode letters; we include the accented vowels that
occur in Italian text, which is what the pattern tables target. -/
def isWordChar (c : Char) : Bool :=
  c.isAlpha || c.isDigit || c = '_' ||
    ['à', 'è', 'é', 'ì', 'ò', 'ù'].contains c

/-- One atom of a pattern: a literal character, a character class,
an [a-zA-Z]+ run, or a \d+ run. -/
inductive Seg where
  | ch (c : Char)
  | chOf (cs : List Char)
  | alphas
  | digits
deriving DecidableEq, Repr

/-- Greedy consumption of a segment list from the front of the input,
returning the remaining input on success.  The greedy run semantics
agrees with existential regex matching for the source patterns because
every run is immediately followed by a boundary or a non-run character. -/
def segsConsume : List Seg → List Char → Option (List Char)
  | [], s => some s
  | Seg.ch _ :: _, [] => none
  | Seg.ch c :: segs, d :: s => if d = c then segsConsume segs s else none
  | Seg.chOf _ :: _, [] => none
  | Seg.chOf cs :: segs, d :: s =>
      if cs.contains d then segsConsume segs s else none
  | Seg.alphas :: _, [] => none
  | Seg.alphas :: segs, d :: s =>
      if d.isAlpha then segsConsume segs (s.dropWhile Char.isAlpha) else none
  | Seg.digits :: _, [] => none
  | Seg.digits :: segs, d :: s =>
      if d.isDigit then segsConsume segs (s.dropWhile Char.isDigit) else none

/-- A pattern from the classifier tables: either a word-bounded sequence
(r"\b...\b") or a word-bounded sequence followed by ".*\?" (the question
patterns). -/
inductive Pat where
  | word (segs : List Seg)
  | wordQ (segs : List Seg)
deriving DecidableEq, Repr

def Pat.segs : Pat → List Seg
  | Pat.word s => s
  | Pat.wordQ s => s

/-- The closing word boundary: end of input or a non-word character. -/
def boundaryOk : List Char → Bool
  | [] => true
  | c :: _ => !isWordChar c

/-- ".*\?" on the rest of the input: a question mark is reached before
any newline (re dot does not match newline). -/
def qtail : List Char → Bool
  | [] => false
  | c :: s => if c = '?' then true else if c = '\n' then false else qtail s

/-- The check applied to the input remaining after the word match. -/
def Pat.tailOk : Pat → List Char → Bool
  | Pat.word _, r => boundaryOk r
  | Pat.wordQ _, r => boundaryOk r && qtail r

/-- Does the pattern match starting exactly at the front of `s`? -/
def matchAt (p : Pat) (s : List Char) : Bool :=
  match segsConsume p.segs s with
  | some r => p.tailOk r
  | none => false

/-- Scan all start positions; `prevWord` records whether the previous
character was a word character (for the opening boundary; every source
pattern begins with a word character). -/
def searchFrom (p : Pat) : Bool → List Char → Bool
  | _, [] => false
  | prevWord, c :: s =>
      (!prevWord && matchAt p (c :: s)) || searchFrom p (isWordChar c) s

/-- re.search for one pattern of the tables. -/
def reSearch (p : Pat) (s : List Char) : Bool :=
  searchFrom p false s

def litSegs (w : String) : List Seg := w.data.map Seg.ch

def wordPat (w : String) : Pat := Pat.word (litSegs w)

/-- self.personal_patterns of MessageImportanceClassifier. -/
def personalPatterns : List Pat :=
  [ wordPat "mi chiamo", wordPat "il mio nome",
    Pat.word (litSegs "sono " ++ [Seg.alphas]),
    wordPat "lavoro come", wordPat "faccio il", wordPat "studio",
    wordPat "abito",
    Pat.word (litSegs "ho " ++ [Seg.digits] ++ litSegs " anni"),
    wordPat "sono nato", wordPat "vivo a",
    wordPat "mi piace", wordPat "amo", wordPat "odio", wordPat "detesto",
    Pat.word (litSegs "preferisc" ++ [Seg.chOf ['o', 'i']]),
    wordPat "mia passione", wordPat "mio hobby",
    wordPat "sono allergico", wordPat "non posso mangiare" ]

/-- self.decision_patterns. -/
def decisionPatterns : List Pat :=
  [ wordPat "decido", wordPat "scelgo", wordPat "voglio", wordPat "devo",
    wordPat "ricordati", wordPat "importante", wordPat "non dimenticare",
    wordPat "piano", wordPat "obbiettivo", wordPat "strategia" ]

/-- self.technical_patterns; r"\berr?ore\b" is expanded into its two
instances "errore" and "erore". -/
def technicalPatterns : List Pat :=
  [ wordPat "progetto", wordPat "codice", wordPat "api", wordPat "database",
    wordPat "funzione", wordPat "algoritmo", wordPat "architettura",
    wordPat "errore", wordPat "erore",
    wordPat "bug", wordPat "problema", wordPat "soluzione" ]

/-- self.question_patterns (each is r"\bw\b.*\?"). -/
def questionPatterns : List Pat :=
  [ Pat.wordQ (litSegs "come"),
    Pat.wordQ (litSegs "perch" ++ [Seg.chOf ['e', 'é']]),
    Pat.wordQ (litSegs "dove"),
    Pat.wordQ (litSegs "quando"),
    Pat.wordQ (litSegs "cosa"),
    Pat.wordQ (litSegs "quale") ]

/-- self.low_patterns. -/
def lowPatterns : List Pat :=
  [ wordPat "ciao", wordPat "grazie", wordPat "prego", wordPat "va bene",
    wordPat "si", wordPat "no", wordPat "ok", wordPat "d\x27accordo",
    wordPat "perfetto" ]

/-- Any pattern of a group fires on the text. -/
def anyMatch (ps : List Pat) (s : List Char) : Bool :=
  ps.any (fun p => reSearch p s)

/-- message.lower() as character data (ASCII lowering, which covers the
pattern tables). -/
def lowerData (message : String) : List Char :=
  message.data.map Char.toLower

/-- Counter for len(message.split()): number of maximal runs of
non-whitespace characters. -/
def wordCountAux : Bool → List Char → Nat
  | _, [] => 0
  | inWord, c :: s =>
      if c.isWhitespace then wordCountAux false s
      else (if inWord then 0 else 1) + wordCountAux true s

/-- len(message.split()). -/
def wordCount (message : String) : Nat :=
  wordCountAux false message.data

/-- Rational addition in an executable form (Batteries marks Rat.add
irreducible, which blocks kernel evaluation); proved equal to + below. -/
def qadd (a b : ℚ) : ℚ :=
  Rat.divInt (a.num * (b.den : ℤ) + b.num * (a.den : ℤ)) ((a.den : ℤ) * (b.den : ℤ))

/-- Rational multiplication in an executable form; proved equal to *. -/
def qmul (a b : ℚ) : ℚ :=
  Rat.divInt (a.num * b.num) ((a.den : ℤ) * (b.den : ℤ))

theorem qadd_eq (a b : ℚ) : qadd a b = a + b := by
  have ha : (a.den : ℚ) ≠ 0 := by exact_mod_cast a.den_ne_zero
  have hb : (b.den : ℚ) ≠ 0 := by exact_mod_cast b.den_ne_zero
  rw [qadd, Rat.divInt_eq_div]
  push_cast
  conv_rhs => rw [← Rat.num_div_den a, ← Rat.num_div_den b]
  field_simp

theorem qmul_eq (a b : ℚ) : qmul a b = a * b := by
  have ha : (a.den : ℚ) ≠ 0 := by exact_mod_cast a.den_ne_zero
  have hb : (b.den : ℚ) ≠ 0 := by exact_mod_cast b.den_ne_zero
  rw [qmul, Rat.divInt_eq_div]
  push_cast
  conv_rhs => rw [← Rat.num_div_den a, ← Rat.num_div_den b]
  field_simp

inductive ImportanceLevel where
  | low
  | medium
  | high
deriving DecidableEq, Repr

/-- The .value string of the ImportanceLevel enum. -/
def ImportanceLevel.value : ImportanceLevel → String
  | .low => "low"
  | .medium => "medium"
  | .high => "high"

/-- Running score after the four additive pattern-group checks of
MessageImportanceClassifier.classify (weights 0.8, 0.6, 0.4, 0.3,
accumulated in source order). -/
def rawScore (message : String) : ℚ :=
  qadd
    (qadd
      (qadd
        (if anyMatch personalPatterns (lowerData message) then mkRat 8 10 else 0)
        (if anyMatch decisionPatterns (lowerData message) then mkRat 6 10 else 0))
      (if anyMatch technicalPatterns (lowerData message) then mkRat 4 10 else 0))
    (if anyMatch questionPatterns (lowerData message) then mkRat 3 10 else 0)

/-- Low-importance dampening: if a filler pattern fires and the message
has at most 3 words, the score is multiplied by 0.3. -/
def dampedScore (message : String) : ℚ :=
  if anyMatch lowPatterns (lowerData message) = true ∧ wordCount message ≤ 3
  then qmul (rawScore message) (mkRat 3 10)
  else rawScore message

/-- Length adjustment: more than 20 words adds 0.2, fewer than 5 words
multiplies by 0.8. -/
def adjustedScore (message : String) : ℚ :=
  if 20 < wordCount message then qadd (dampedScore message) (mkRat 2 10)
  else if wordCount message < 5 then qmul (dampedScore message) (mkRat 8 10)
  else dampedScore message

/-- Executable minimum on rationals (kernel-reducible, unlike the
order-theoretic min). -/
def ratMin (a b : ℚ) : ℚ :=
  if a ≤ b then a else b

theorem ratMin_eq_min (a b : ℚ) : ratMin a b = min a b := by
  rw [ratMin, min_def]

/-- Final score of classify: the adjusted score clamped by min(1.0, score). -/
def classifyScore (message : String) : ℚ :=
  ratMin 1 (adjustedScore message)

/-- Level mapping of classify: at least 0.7 is high, at least 0.4 is
medium, otherwise low. -/
def classifyLevel (message : String) : ImportanceLevel :=
  if classifyScore message ≥ mkRat 7 10 then .high
  else if classifyScore message ≥ mkRat 4 10 then .medium
  else .low

/-- MessageImportanceClassifier.classify, returning (level, score). -/
def classify (message : String) : ImportanceLevel × ℚ :=
  (classifyLevel message, classifyScore message)

theorem mkRat_as_div (n : ℤ) (d : ℕ) : mkRat n d = (n : ℚ) / (d : ℚ) := by
  rw [Rat.mkRat_eq_divInt, Rat.divInt_eq_div]
  norm_num

theorem rawScore_nonneg (message : String) : 0 ≤ rawScore message := by
  unfold rawScore
  simp only [qadd_eq, mkRat_as_div]
  split_ifs <;> norm_num

theorem dampedScore_nonneg (message : String) : 0 ≤ dampedScore message := by
  unfold dampedScore
  have h := rawScore_nonneg message
  simp only [qmul_eq, mkRat_as_div]
  split_ifs
  · positivity
  · exact h

theorem adjustedScore_nonneg (message : String) : 0 ≤ adjustedScore message := by
  unfold adjustedScore
  have h := dampedScore_nonneg message
  simp only [qadd_eq, qmul_eq, mkRat_as_div]
  split_ifs <;> [linarith; positivity; exact h]

theorem classifyScore_nonneg (message : String) : 0 ≤ classifyScore message := by
  rw [classifyScore, ratMin]
  split_ifs with h
  · norm_num
  · exact adjustedScore_nonneg message

theorem classifyScore_le_one (message : String) : classifyScore message ≤ 1 := by
  rw [classifyScore, ratMin]
  split_ifs with h
  · exact le_refl 1
  · exact (not_le.mp h).le

theorem classifyLevel_iff (message : String) :
    (classifyLevel message = ImportanceLevel.high ↔
        mkRat 7 10 ≤ classifyScore message) ∧
      (classifyLevel message = ImportanceLevel.medium ↔
        mkRat 4 10 ≤ classifyScore message ∧ classifyScore message < mkRat 7 10) ∧
      (classifyLevel message = ImportanceLevel.low ↔
        classifyScore message < mkRat 4 10) := by
  have h47 : mkRat 4 10 ≤ mkRat 7 10 := by decide
  rw [classifyLevel]
  split_ifs with h1 h2
  · refine ⟨iff_of_true rfl h1, iff_of_false (by decide) ?_, iff_of_false (by decide) ?_⟩
    · exact fun hm => absurd h1 (not_le.mpr hm.2)
    · exact fun hl => absurd hl (not_lt.mpr (le_trans h47 h1))
  · refine ⟨iff_of_false (by decide) ?_, iff_of_true rfl ⟨h2, not_le.mp h1⟩,
      iff_of_false (by decide) ?_⟩
    · exact fun hh => absurd hh h1
    · exact fun hl => absurd hl (not_lt.mpr h2)
  · refine ⟨iff_of_false (by decide) ?_, iff_of_false (by decide) ?_,
      iff_of_true rfl (not_le.mp h2)⟩
    · exact fun hh => absurd hh h1
    · exact fun hm => absurd hm.1 h2

theorem dropWhile_append_space (p : Char → Bool) (hp : p ' ' = false)
    (u t : List Char) :
    (u ++ ' ' :: t).dropWhile p = u.dropWhile p ++ ' ' :: t := by
  induction u with
  | nil => simp [List.dropWhile, hp]
  | cons c u₀ ih =>
      by_cases hc : p c
      · simpa [List.dropWhile, hc] using ih
      · simp [List.dropWhile, hc]

theorem segsConsume_append (segs : List Seg) :
    ∀ u r t : List Char, segsConsume segs u = some r →
      segsConsume segs (u ++ ' ' :: t) = some (r ++ ' ' :: t) := by
  induction segs with
  | nil =>
      intro u r t h
      simp [segsConsume] at h
      simp [segsConsume, h]
  | cons sg segs ih =>
      intro u r t h
      cases sg with
      | ch c =>
          cases u with
          | nil => simp [segsConsume] at h
          | cons d u₀ =>
              by_cases hd : d = c
              · rw [List.cons_append]
                simp only [segsConsume, if_pos hd] at h ⊢
                exact ih u₀ r t h
              · simp [segsConsume, hd] at h
      | chOf cs =>
          cases u with
          | nil => simp [segsConsume] at h
          | cons d u₀ =>
              by_cases hd : cs.contains d
              · rw [List.cons_append]
                simp only [segsConsume, if_pos hd] at h ⊢
                exact ih u₀ r t h
              · simp only [segsConsume, if_neg hd] at h
                exact absurd h (by simp)
      | alphas =>
          cases u with
          | nil => simp [segsConsume] at h
          | cons d u₀ =>
              by_cases hd : d.isAlpha
              · rw [List.cons_append]
                simp only [segsConsume, if_pos hd] at h ⊢
                rw [dropWhile_append_space Char.isAlpha (by decide)]
                exact ih _ r t h
              · simp [segsConsume, hd] at h
      | digits =>
          cases u with
          | nil => simp [segsConsume] at h
          | cons d u₀ =>
              by_cases hd : d.isDigit
              · rw [List.cons_append]
                simp only [segsConsume, if_pos hd] at h ⊢
                rw [dropWhile_append_space Char.isDigit (by decide)]
                exact ih _ r t h
              · simp [segsConsume, hd] at h

theorem qtail_append (r v : List Char) (h : qtail r = true) :
    qtail (r ++ v) = true := by
  induction r with
  | nil => simp [qtail] at h
  | cons c r₀ ih =>
      by_cases h1 : c = '?'
      · simp [qtail, h1]
      · by_cases h2 : c = '\n'
        · simp [qtail, h1, h2] at h
        · rw [List.cons_append]
          simp only [qtail, if_neg h1, if_neg h2] at h ⊢
          exact ih h

theorem tailOk_append (p : Pat) (r t : List Char) (h : p.tailOk r = true) :
    p.tailOk (r ++ ' ' :: t) = true := by
  cases p with
  | word segs =>
      cases r with
      | nil => simp [Pat.tailOk, boundaryOk, isWordChar]
      | cons c r₀ => simpa [Pat.tailOk, boundaryOk] using h
  | wordQ segs =>
      cases r with
      | nil => simp [Pat.tailOk, boundaryOk, qtail] at h
      | cons c r₀ =>
          simp only [Pat.tailOk, boundaryOk, Bool.and_eq_true] at h ⊢
          exact ⟨h.1, qtail_append _ _ h.2⟩

theorem matchAt_append (p : Pat) (u t : List Char) (h : matchAt p u = true) :
    matchAt p (u ++ ' ' :: t) = true := by
  rw [matchAt] at h ⊢
  cases hc : segsConsume p.segs u with
  | none => rw [hc] at h; exact absurd h (by simp)
  | some r =>
      rw [hc] at h
      rw [segsConsume_append p.segs u r t hc]
      exact tailOk_append p r t h

theorem searchFrom_append (p : Pat) (t : List Char) :
    ∀ (s : List Char) (b : Bool), searchFrom p b s = true →
      searchFrom p b (s ++ ' ' :: t) = true := by
  intro s
  induction s with
  | nil => intro b h; simp [searchFrom] at h
  | cons c s₀ ih =>
      intro b h
      simp only [searchFrom, Bool.or_eq_true, Bool.and_eq_true] at h ⊢
      rcases h with ⟨hb, hm⟩ | hrest
      · exact Or.inl ⟨hb, matchAt_append p _ t hm⟩
      · exact Or.inr (ih _ hrest)

theorem searchFrom_prepend (p : Pat) (s : List Char) (h : reSearch p s = true) :
    ∀ (u : List Char) (b : Bool), searchFrom p b (u ++ ' ' :: s) = true := by
  intro u
  induction u with
  | nil =>
      intro b
      simp only [List.nil_append, searchFrom, Bool.or_eq_true]
      refine Or.inr ?_
      have : isWordChar ' ' = false := by decide
      rw [this]
      exact h
  | cons c u₀ ih =>
      intro b
      simp only [List.cons_append, searchFrom, Bool.or_eq_true]
      exact Or.inr (ih _)

theorem anyMatch_append (ps : List Pat) (m t : List Char)
    (h : anyMatch ps m = true) : anyMatch ps (m ++ ' ' :: t) = true := by
  simp only [anyMatch, List.any_eq_true] at h ⊢
  obtain ⟨p, hp, hs⟩ := h
  exact ⟨p, hp, searchFrom_append p t m false hs⟩

theorem anyMatch_prepend (ps : List Pat) (u s : List Char)
    (h : anyMatch ps s = true) : anyMatch ps (u ++ ' ' :: s) = true := by
  simp only [anyMatch, List.any_eq_true] at h ⊢
  obtain ⟨p, hp, hs⟩ := h
  exact ⟨p, hp, searchFrom_prepend p s hs u false⟩

theorem wordCountAux_append (v : List Char) :
    ∀ (u : List Char) (b : Bool),
      wordCountAux b (u ++ ' ' :: v) = wordCountAux b u + wordCountAux false v := by
  intro u
  induction u with
  | nil =>
      intro b
      simp [wordCountAux]
  | cons c u₀ ih =>
      intro b
      by_cases hc : c.isWhitespace
      · simp [wordCountAux, hc, ih]
      · simp [wordCountAux, hc, ih]
        omega

theorem lowerData_append (a b : String) :
    lowerData (a ++ " " ++ b) = lowerData a ++ ' ' :: lowerData b := by
  simp [lowerData, String.data_append]

theorem wordCount_append (a b : String) :
    wordCount (a ++ " " ++ b) = wordCount a + wordCount b := by
  have h : (a ++ " " ++ b).data = a.data ++ ' ' :: b.data := by
    simp [String.data_append]
  rw [wordCount, wordCount, wordCount, h, wordCountAux_append]

theorem ite_weight_mono {a b : Bool} (h : a = true → b = true) {w : ℚ}
    (hw : 0 ≤ w) : (if a then w else 0) ≤ (if b then w else 0) := by
  cases a
  · cases b <;> simp [hw]
  · rw [h rfl]

theorem rawScore_mono (o a : String)
    (h1 : anyMatch personalPatterns (lowerData o) = true →
      anyMatch personalPatterns (lowerData a) = true)
    (h2 : anyMatch decisionPatterns (lowerData o) = true →
      anyMatch decisionPatterns (lowerData a) = true)
    (h3 : anyMatch technicalPatterns (lowerData o) = true →
      anyMatch technicalPatterns (lowerData a) = true)
    (h4 : anyMatch questionPatterns (lowerData o) = true →
      anyMatch questionPatterns (lowerData a) = true) :
    rawScore o ≤ rawScore a := by
  unfold rawScore
  simp only [qadd_eq]
  exact add_le_add
    (add_le_add
      (add_le_add (ite_weight_mono h1 (by decide)) (ite_weight_mono h2 (by decide)))
      (ite_weight_mono h3 (by decide)))
    (ite_weight_mono h4 (by decide))

theorem dampedScore_mono (o a : String)
    (hraw : rawScore o ≤ rawScore a)
    (hlow : anyMatch lowPatterns (lowerData a) = true →
      anyMatch lowPatterns (lowerData o) = true)
    (hwc : wordCount o ≤ wordCount a) :
    dampedScore o ≤ dampedScore a := by
  have h0 : 0 ≤ rawScore o := rawScore_nonneg o
  by_cases ha : anyMatch lowPatterns (lowerData a) = true ∧ wordCount a ≤ 3
  · have ho : anyMatch lowPatterns (lowerData o) = true ∧ wordCount o ≤ 3 :=
      ⟨hlow ha.1, le_trans hwc ha.2⟩
    rw [dampedScore, dampedScore, if_pos ho, if_pos ha]
    simp only [qmul_eq, mkRat_as_div]
    exact mul_le_mul_of_nonneg_right hraw (by norm_num)
  · rw [dampedScore, dampedScore, if_neg ha]
    by_cases ho : anyMatch lowPatterns (lowerData o) = true ∧ wordCount o ≤ 3
    · rw [if_pos ho]
      simp only [qmul_eq, mkRat_as_div]
      nlinarith [h0, hraw]
    · rw [if_neg ho]
      exact hraw

theorem adjustedScore_mono (o a : String)
    (hd : dampedScore o ≤ dampedScore a)
    (hwc : wordCount o ≤ wordCount a) :
    adjustedScore o ≤ adjustedScore a := by
  have h0 : 0 ≤ dampedScore o := dampedScore_nonneg o
  unfold adjustedScore
  simp only [qadd_eq, qmul_eq, mkRat_as_div]
  by_cases ha20 : 20 < wordCount a
  · rw [if_pos ha20]
    by_cases ho20 : 20 < wordCount o
    · rw [if_pos ho20]
      linarith
    · rw [if_neg ho20]
      by_cases ho5 : wordCount o < 5
      · rw [if_pos ho5]
        nlinarith
      · rw [if_neg ho5]
        linarith
  · rw [if_neg ha20]
    by_cases ha5 : wordCount a < 5
    · have ho20 : ¬ 20 < wordCount o := by omega
      have ho5 : wordCount o < 5 := by omega
      rw [if_pos ha5, if_neg ho20, if_pos ho5]
      exact mul_le_mul_of_nonneg_right hd (by norm_num)
    · have ho20 : ¬ 20 < wordCount o := by omega
      rw [if_neg ha5, if_neg ho20]
      by_cases ho5 : wordCount o < 5
      · rw [if_pos ho5]
        nlinarith
      · rw [if_neg ho5]
        exact hd

theorem classifyScore_mono_of_adjusted (o a : String)
    (h : adjustedScore o ≤ adjustedScore a) :
    classifyScore o ≤ classifyScore a := by
  rw [classifyScore, classifyScore, ratMin_eq_min, ratMin_eq_min]
  exact min_le_min (le_refl 1) h

/-- Python str.strip(): drop leading and trailing whitespace. -/
def stripData (s : List Char) : List Char :=
  ((s.dropWhile Char.isWhitespace).reverse.dropWhile Char.isWhitespace).reverse

/-- str.strip() lifted back to strings. -/
def stripStr (s : String) : String :=
  String.mk (stripData s.data)

/-- MemoryService._normalize_text: unicodedata.normalize("NFKC",
text).strip().lower().  NFKC is the identity on the character data in
scope here, so the model is strip followed by lower. -/
def normalize_text (text : String) : String :=
  String.mk ((stripData text.data).map Char.toLower)

/-- hashlib.sha1(...).hexdigest() is an external digest; the code relies
only on it being deterministic with negligible collisions, so the ideal
injective hash is modeled by the identity on the hash input. -/
def sha1_hex (s : String) : String := s

/-- MemoryService._make_memory_id: sha1 over "kind|scope|normalized". -/
def make_memory_id (kind content scope : String) : String :=
  sha1_hex (kind ++ "|" ++ scope ++ "|" ++ normalize_text content)

/-- hashlib.md5(...).hexdigest(), with the same ideal-hash model. -/
def md5_hex (s : String) : String := s

/-- datetime.now().isoformat() for a tick counter: any rendering of the
instant that is injective in the instant; decimal digits here. -/
def isoformat (now : Nat) : String := toString now

/-- HybridMemoryService._generate_memory_id: md5 over
content_conversation_tier_isoformat(now). -/
def generate_memory_id (content conversation_id tier : String) (now : Nat) : String :=
  md5_hex (content ++ "_" ++ conversation_id ++ "_" ++ tier ++ "_" ++ isoformat now)

inductive StorageTier where
  | recent
  | important
  | medium_term
  | compressed
  | global
deriving DecidableEq, Repr

/-- The .value strings of the StorageTier enum (MEDIUM_TERM.value is
"medium"). -/
def StorageTier.value : StorageTier → String
  | .recent => "recent"
  | .important => "important"
  | .medium_term => "medium"
  | .compressed => "compressed"
  | .global => "global"

/-- Scalar metadata values occurring in the dicts of the service. -/
inductive MetaVal where
  | s (v : String)
  | b (v : Bool)
  | n (v : Nat)
deriving DecidableEq, Repr

/-- Metadata dict: first binding wins on lookup, so a key that Python
writes later in a dict literal is placed earlier in this list. -/
def Metadata := List (String × MetaVal)
deriving instance DecidableEq, Repr for Metadata

/-- dict.get(k). -/
def metaGet (m : Metadata) (k : String) : Option MetaVal :=
  List.lookup k m

structure HybridMemoryItem where
  content : String
  metadata : Metadata
  timestamp : Nat
  conversation_id : String
  message_type : String
  importance : ImportanceLevel
  storage_tier : StorageTier
  ttl : Option Nat
deriving DecidableEq, Repr

/-- The HybridMemoryConfig fields the modeled logic reads. -/
structure HybridMemoryConfig where
  recent_buffer_size : Nat
  similarity_threshold : ℚ
  medium_term_ttl_days : Nat
deriving Repr

/-- Defaults of the HybridMemoryConfig pydantic model: 50, 0.25, 30. -/
def defaultConfig : HybridMemoryConfig :=
  { recent_buffer_size := 50
    similarity_threshold := mkRat 25 100
    medium_term_ttl_days := 30 }

/-- One upserted Pinecone vector as written by _store_permanent or
_store_with_ttl: the id and the metadata fields those functions
populate (the embedding vector itself is external). -/
structure PersistedRecord where
  id : String
  content : String
  timestamp : Nat
  conversation_id : String
  message_type : String
  importance : ImportanceLevel
  storage_tier : StorageTier
  ttl : Option Nat
  metadata : Metadata
deriving DecidableEq, Repr

/-- Seconds in a day, for datetime.timedelta(days=n). -/
def daySeconds : Nat := 86400

structure HybridState where
  recent_buffer : List HybridMemoryItem
  persisted : List PersistedRecord
  compaction_attempts : Nat
deriving DecidableEq, Repr

def initState : HybridState :=
  { recent_buffer := [], persisted := [], compaction_attempts := 0 }

/-- collections.deque(maxlen := cap).append: drop from the left on
overflow. -/
def dequeAppend {α : Type} (cap : Nat) (buf : List α) (x : α) : List α :=
  let b := buf ++ [x]
  if cap < b.length then b.drop (b.length - cap) else b

/-- metadata.get("role") == r. -/
def roleIs (item : HybridMemoryItem) (r : String) : Bool :=
  metaGet item.metadata "role" == some (MetaVal.s r)

/-- Inner loop of _maybe_summarize_and_compress: the first buffer item,
scanning from the start, that is an assistant turn of the conversation
strictly newer than the given user turn. -/
def findAiResponse (buf : List HybridMemoryItem) (conversation_id : String)
    (ts : Nat) : Option String :=
  (buf.find? (fun next => next.conversation_id == conversation_id &&
      roleIs next "assistant" && decide (ts < next.timestamp))).map
    (fun next => next.content)

/-- Outer loop of _maybe_summarize_and_compress: each user turn of the
conversation paired with a following assistant turn, in buffer order. -/
def pairExchanges (buf : List HybridMemoryItem) (conversation_id : String) :
    List (String × String) :=
  (buf.filter (fun i => i.conversation_id == conversation_id &&
      roleIs i "user")).filterMap
    (fun i => (findAiResponse buf conversation_id i.timestamp).map
      (fun a => (i.content, a)))

/-- _store_permanent: the upserted record with the canonical metadata
fields (this path writes no ttl key). -/
def storePermanent (item : HybridMemoryItem) (now : Nat) : PersistedRecord :=
  { id := generate_memory_id item.content item.conversation_id
      item.storage_tier.value now
    content := item.content
    timestamp := item.timestamp
    conversation_id := item.conversation_id
    message_type := item.message_type
    importance := item.importance
    storage_tier := item.storage_tier
    ttl := none
    metadata := item.metadata }

/-- _store_with_ttl: _store_permanent plus the ttl key when present. -/
def storeWithTtl (item : HybridMemoryItem) (now : Nat) : PersistedRecord :=
  { storePermanent item now with ttl := item.ttl }

/-- _maybe_summarize_and_compress: when the buffer holds at least 5
paired exchanges for the conversation, persist their summary as a
compressed memory.  Invoking this function is one compaction attempt;
the external summarization output is the summary argument. -/
def maybe_summarize_and_compress (st : HybridState) (conversation_id : String)
    (summary : String) (now : Nat) : HybridState :=
  let conv_messages := pairExchanges st.recent_buffer conversation_id
  if 5 ≤ conv_messages.length then
    let summary_item : HybridMemoryItem :=
      { content := summary
        metadata := [("type", MetaVal.s "conversation_summary"),
          ("original_turns", MetaVal.n conv_messages.length)]
        timestamp := now
        conversation_id := conversation_id
        message_type := "summary"
        importance := ImportanceLevel.medium
        storage_tier := StorageTier.compressed
        ttl := none }
    { st with
        persisted := st.persisted ++ [storePermanent summary_item now]
        compaction_attempts := st.compaction_attempts + 1 }
  else
    { st with compaction_attempts := st.compaction_attempts + 1 }

/-- fact.split with a single split on the first bar, stripping the
category and defaulting it to "general". -/
def splitFact (fact : String) : String × String :=
  match fact.splitOn "|" with
  | [] => (fact, "general")
  | [_] => (fact, "general")
  | p :: rest => (p, stripStr (String.intercalate "|" rest))

/-- fact_content.split on the first colon when one exists, else
"general" (the fact_type metadata). -/
def factType (fact_content : String) : String :=
  match fact_content.splitOn ":" with
  | [] => "general"
  | [_] => "general"
  | p :: _ => p

/-- The per-fact global memory item built by store_conversation_turn
when extraction returned facts. -/
def mkFactItem (base : Metadata) (fact : String) (now : Nat) : HybridMemoryItem :=
  let fc := (splitFact fact).1
  { content := fc
    metadata := ("role", MetaVal.s "user") :: ("type", MetaVal.s "personal_info")
      :: ("category", MetaVal.s (splitFact fact).2)
      :: ("fact_type", MetaVal.s (factType fc)) :: base
    timestamp := now
    conversation_id := "global"
    message_type := "personal"
    importance := ImportanceLevel.high
    storage_tier := StorageTier.global
    ttl := none }

/-- The raw-turn item of the no-facts branch.  Python creates it with
the default recent tier and then mutates storage_tier and ttl on the
same object before any read, so the buffer and the store both see the
medium-term fields. -/
def mkRawItem (cfg : HybridMemoryConfig) (base : Metadata)
    (user_message conversation_id : String) (now : Nat) : HybridMemoryItem :=
  { content := user_message
    metadata := ("role", MetaVal.s "user") :: base
    timestamp := now
    conversation_id := conversation_id
    message_type := "chat"
    importance := ImportanceLevel.medium
    storage_tier := StorageTier.medium_term
    ttl := some (now + cfg.medium_term_ttl_days * daySeconds) }

/-- HybridMemoryService.store_conversation_turn.  External effects are
parameters: canonical_facts is what _extract_canonical_facts returned
(empty also when extraction errors), summary is what the summarizer
would produce, now is the current tick.  ai_response is accepted but no
longer stored by the code. -/
def store_conversation_turn (cfg : HybridMemoryConfig) (st : HybridState)
    (user_message ai_response conversation_id : String)
    (additional_metadata : Metadata) (canonical_facts : List String)
    (summary : String) (now : Nat) : HybridState × Bool :=
  match canonical_facts with
  | [] =>
      let user_item := mkRawItem cfg additional_metadata user_message conversation_id now
      let buf := dequeAppend cfg.recent_buffer_size st.recent_buffer user_item
      let st1 : HybridState :=
        { st with recent_buffer := buf
                  persisted := st.persisted ++ [storeWithTtl user_item now] }
      let st2 :=
        if buf.length = cfg.recent_buffer_size then
          maybe_summarize_and_compress st1 conversation_id summary now
        else st1
      (st2, true)
  | f :: fs =>
      let user_items := (f :: fs).map (fun fact => mkFactItem additional_metadata fact now)
      let buf := dequeAppend cfg.recent_buffer_size st.recent_buffer
        (mkFactItem additional_metadata f now)
      let st1 : HybridState :=
        { st with recent_buffer := buf
                  persisted := st.persisted ++
                    user_items.map (fun it => storePermanent it now) }
      let st2 :=
        if buf.length = cfg.recent_buffer_size then
          maybe_summarize_and_compress st1 conversation_id summary now
        else st1
      (st2, true)

/-- HybridMemoryService.store_ai_response_manually: persist the
assistant turn permanently as important; the recency buffer is not
touched. -/
def store_ai_response_manually (st : HybridState)
    (ai_response conversation_id user_message : String)
    (additional_metadata : Metadata) (now : Nat) : HybridState × Bool :=
  let ai_item : HybridMemoryItem :=
    { content := ai_response
      metadata := ("role", MetaVal.s "assistant")
        :: ("manually_saved", MetaVal.b true)
        :: ("related_user_message", MetaVal.s user_message)
        :: additional_metadata
      timestamp := now
      conversation_id := conversation_id
      message_type := "chat"
      importance := ImportanceLevel.high
      storage_tier := StorageTier.important
      ttl := none }
  ({ st with persisted := st.persisted ++ [storePermanent ai_item now] }, true)

/-- The operations a caller can perform against the service. -/
inductive HybridOp where
  | storeTurn (user_message ai_response conversation_id : String)
      (additional_metadata : Metadata) (canonical_facts : List String)
      (summary : String) (now : Nat)
  | saveAiResponse (ai_response conversation_id user_message : String)
      (additional_metadata : Metadata) (now : Nat)

def applyOp (cfg : HybridMemoryConfig) (st : HybridState) : HybridOp → HybridState
  | .storeTurn um ar cid meta facts summ now =>
      (store_conversation_turn cfg st um ar cid meta facts summ now).1
  | .saveAiResponse ar cid um meta now =>
      (store_ai_response_manually st ar cid um meta now).1

def runOps (cfg : HybridMemoryConfig) (ops : List HybridOp) : HybridState :=
  ops.foldl (applyOp cfg) initState

/-- n identical automatic stores (no facts extracted) against a fresh
service, for the compaction-trigger analysis. -/
def iterateStore : Nat → HybridState
  | 0 => initState
  | n + 1 =>
      (store_conversation_turn defaultConfig (iterateStore n) "msg" "reply"
        "conv" [] [] "" n).1

/-- One match of the Pinecone query response, with the metadata fields
the retrieval logic reads flattened into fields.  testFlag records
whether metadata.get("test") is True or "true". -/
structure PineconeMatch where
  id : String
  score : ℚ
  content : String
  timestamp : Nat
  conversation_id : String
  message_type : String
  importance : String
  storage_tier : String
  ttl : Option Nat
  testFlag : Bool
  metadata : Metadata
deriving DecidableEq, Repr

/-- One entry of the list retrieve_memories returns; permanent matches
carry their Pinecone id, buffer hits do not. -/
structure RetrievedMemory where
  id : Option String
  content : String
  score : ℚ
  timestamp : Nat
  conversation_id : String
  message_type : String
  importance : String
  storage_tier : String
  source : String
  metadata : Metadata
deriving DecidableEq, Repr

/-- s.startswith(p). -/
def strStartsWith (s p : String) : Bool :=
  p.data.isPrefixOf s.data

/-- The explicit dummy/test-data filter of retrieve_memories and
_search_recent_buffer. -/
def isTestData (testFlag : Bool) (conversation_id : String) : Bool :=
  testFlag || ["test", "test_data", "dummy", "example"].contains conversation_id ||
    strStartsWith conversation_id "test-" || strStartsWith conversation_id "dummy-"

/-- metadata.get("test") == True or metadata.get("test") == "true". -/
def testMeta (m : Metadata) : Bool :=
  metaGet m "test" == some (MetaVal.b true) || metaGet m "test" == some (MetaVal.s "true")

/-- Splitter for str.split() (whitespace runs, no empties). -/
def splitWordsAux : List Char → List Char → List (List Char)
  | cur, [] => if cur.isEmpty then [] else [cur.reverse]
  | cur, c :: rest =>
      if c.isWhitespace then
        if cur.isEmpty then splitWordsAux [] rest
        else cur.reverse :: splitWordsAux [] rest
      else splitWordsAux (c :: cur) rest

/-- set(s.lower().split()): the distinct lowercased words. -/
def wordSet (s : String) : List (List Char) :=
  (splitWordsAux [] (lowerData s)).dedup

/-- Python truthiness guard: conversation_id and
item.conversation_id != conversation_id (an empty string is falsy). -/
def convMismatch (conversation_id : Option String) (itemConv : String) : Bool :=
  match conversation_id with
  | some cid => (!(cid == "")) && (!(itemConv == cid))
  | none => false

/-- The per-item body of the _search_recent_buffer loop: skip on
conversation mismatch, zero overlap, or test data; otherwise produce the
entry with relevance = overlap size over query word-set size. -/
def bufferHit (query : String) (conversation_id : Option String)
    (item : HybridMemoryItem) : Option RetrievedMemory :=
  if convMismatch conversation_id item.conversation_id then none
  else if 0 < ((wordSet query).filter
      (fun w => (wordSet item.content).contains w)).length then
    if isTestData (testMeta item.metadata) item.conversation_id then none
    else some
      { id := none
        content := item.content
        score := mkRat (((wordSet query).filter
          (fun w => (wordSet item.content).contains w)).length) (wordSet query).length
        timestamp := item.timestamp
        conversation_id := item.conversation_id
        message_type := item.message_type
        importance := item.importance.value
        storage_tier := "recent_buffer"
        source := "recent"
        metadata := item.metadata }
  else none

/-- HybridMemoryService._search_recent_buffer: most recent first, word
overlap scoring. -/
def search_recent_buffer (buf : List HybridMemoryItem) (query : String)
    (conversation_id : Option String) : List RetrievedMemory :=
  buf.reverse.filterMap (bufferHit query conversation_id)

/-- The filter built by retrieve_memories: conversation_id in
{given, "global"} when one is (truthily) supplied, otherwise no filter
at all. -/
def pineconeFilter (conversation_id : Option String) : Option (List String) :=
  match conversation_id with
  | some cid => if cid = "" then none else some [cid, "global"]
  | none => none

/-- Documented query semantics of the external vector store: an optional
set-membership filter on conversation_id over the ranked index, then the
top_k best matches. -/
def pineconeQuery (index : List PineconeMatch) (filt : Option (List String))
    (top_k : Nat) : List PineconeMatch :=
  match filt with
  | none => index.take top_k
  | some cs => (index.filter (fun m => cs.contains m.conversation_id)).take top_k

/-- The per-match body of the permanent-storage loop of
retrieve_memories: keep a match when its score reaches the similarity
threshold, its ttl has not passed, and it is not marked as test data. -/
def permRecord (cfg : HybridMemoryConfig) (now : Nat) (m : PineconeMatch) :
    Option RetrievedMemory :=
  if cfg.similarity_threshold ≤ m.score then
    if (match m.ttl with | some t => decide (t < now) | none => false) = true then none
    else if isTestData m.testFlag m.conversation_id then none
    else some
      { id := some m.id
        content := m.content
        score := m.score
        timestamp := m.timestamp
        conversation_id := m.conversation_id
        message_type := m.message_type
        importance := m.importance
        storage_tier := m.storage_tier
        source := "permanent"
        metadata := m.metadata }
  else none

def filter_permanent_matches (cfg : HybridMemoryConfig)
    (response : List PineconeMatch) (now : Nat) : List RetrievedMemory :=
  response.filterMap (permRecord cfg now)

/-- Importance weight of the final sort: high 1, medium 0.5, else 0. -/
def importanceWeight (importance : String) : ℚ :=
  if importance = "high" then 1
  else if importance = "medium" then mkRat 1 2
  else 0

/-- Descending lexicographic comparison of the sort keys
(score, importance weight): true when a sorts at or before b. -/
def sortKeyGe (a b : RetrievedMemory) : Bool :=
  decide (b.score < a.score) ||
    (a.score == b.score &&
      decide (importanceWeight b.importance ≤ importanceWeight a.importance))

/-- Stable insertion for the descending sort: a new element goes after
the existing elements whose key is at least its own. -/
def insertByKey (x : RetrievedMemory) : List RetrievedMemory → List RetrievedMemory
  | [] => [x]
  | y :: ys => if sortKeyGe y x then y :: insertByKey x ys else x :: y :: ys

/-- list.sort(key := (score, importance weight), reverse := True):
Python sorting is stable, and the stable descending order is unique, so
stable insertion reproduces it. -/
def sortByKeyDesc (l : List RetrievedMemory) : List RetrievedMemory :=
  l.foldl (fun acc x => insertByKey x acc) []

/-- The two-source merge of retrieve_memories before truncation: buffer
hits (when include_recent) concatenated with the filtered permanent
matches, sorted by the composite key. -/
def merged_memories (cfg : HybridMemoryConfig) (buf : List HybridMemoryItem)
    (query : String) (conversation_id : Option String) (limit : Nat)
    (include_recent : Bool) (index : List PineconeMatch) (now : Nat) :
    List RetrievedMemory :=
  sortByKeyDesc
    ((if include_recent then search_recent_buffer buf query conversation_id else [])
      ++ filter_permanent_matches cfg
        (pineconeQuery index (pineconeFilter conversation_id) (min (limit * 2) 100)) now)

/-- HybridMemoryService.retrieve_memories.  The external index content
(ranked by similarity to the query embedding) is the index argument; now
is the current tick. -/
def retrieve_memories (cfg : HybridMemoryConfig) (buf : List HybridMemoryItem)
    (query : String) (conversation_id : Option String) (limit : Nat)
    (include_recent : Bool) (index : List PineconeMatch) (now : Nat) :
    List RetrievedMemory :=
  (merged_memories cfg buf query conversation_id limit include_recent index now).take limit

theorem dequeAppend_length {α : Type} (cap : Nat) (b : List α) (x : α) :
    (dequeAppend cap b x).length = min (b.length + 1) cap := by
  rw [dequeAppend]
  split_ifs with h
  · simp only [List.length_drop, List.length_append, List.length_singleton] at h ⊢
    omega
  · simp only [List.length_append, List.length_singleton] at h ⊢
    omega

theorem mem_dequeAppend {α : Type} (cap : Nat) (b : List α) (x y : α)
    (h : y ∈ dequeAppend cap b x) : y ∈ b ++ [x] := by
  rw [dequeAppend] at h
  split_ifs at h with hc
  · exact List.drop_subset _ _ h
  · exact h

theorem maybe_summarize_recent_buffer (st : HybridState) (cid summary : String)
    (now : Nat) :
    (maybe_summarize_and_compress st cid summary now).recent_buffer =
      st.recent_buffer := by
  rw [maybe_summarize_and_compress]
  split_ifs <;> rfl

theorem maybe_summarize_attempts (st : HybridState) (cid summary : String)
    (now : Nat) :
    (maybe_summarize_and_compress st cid summary now).compaction_attempts =
      st.compaction_attempts + 1 := by
  rw [maybe_summarize_and_compress]
  split_ifs <;> rfl

theorem findAiResponse_eq_none (buf : List HybridMemoryItem) (cid : String)
    (ts : Nat) (h : ∀ i ∈ buf, roleIs i "assistant" = false) :
    findAiResponse buf cid ts = none := by
  rw [findAiResponse]
  rw [List.find?_eq_none.mpr]
  · rfl
  · intro x hx
    simp [h x hx]

theorem pairExchanges_eq_nil (buf : List HybridMemoryItem) (cid : String)
    (h : ∀ i ∈ buf, roleIs i "assistant" = false) :
    pairExchanges buf cid = [] := by
  rw [pairExchanges]
  rw [List.filterMap_eq_nil_iff]
  intro i hi
  rw [findAiResponse_eq_none buf cid i.timestamp h]
  rfl

theorem maybe_summarize_persisted_of_no_assistant (st : HybridState)
    (cid summary : String) (now : Nat)
    (h : ∀ i ∈ st.recent_buffer, roleIs i "assistant" = false) :
    (maybe_summarize_and_compress st cid summary now).persisted = st.persisted := by
  rw [maybe_summarize_and_compress]
  rw [pairExchanges_eq_nil st.recent_buffer cid h]
  norm_num

theorem roleIs_mkRawItem (cfg : HybridMemoryConfig) (base : Metadata)
    (um cid : String) (now : Nat) :
    roleIs (mkRawItem cfg base um cid now) "assistant" = false := by
  rfl

theorem roleIs_mkFactItem (base : Metadata) (fact : String) (now : Nat) :
    roleIs (mkFactItem base fact now) "assistant" = false := by
  rfl

theorem store_turn_recent_buffer_nil (cfg : HybridMemoryConfig) (st : HybridState)
    (um ar cid : String) (meta : Metadata) (summ : String) (now : Nat) :
    ((store_conversation_turn cfg st um ar cid meta [] summ now).1).recent_buffer =
      dequeAppend cfg.recent_buffer_size st.recent_buffer
        (mkRawItem cfg meta um cid now) := by
  simp only [store_conversation_turn]
  split_ifs with h
  · rw [maybe_summarize_recent_buffer]
  · rfl

theorem store_turn_recent_buffer_cons (cfg : HybridMemoryConfig) (st : HybridState)
    (um ar cid : String) (meta : Metadata) (f : String) (fs : List String)
    (summ : String) (now : Nat) :
    ((store_conversation_turn cfg st um ar cid meta (f :: fs) summ now).1).recent_buffer =
      dequeAppend cfg.recent_buffer_size st.recent_buffer (mkFactItem meta f now) := by
  simp only [store_conversation_turn]
  split_ifs with h
  · rw [maybe_summarize_recent_buffer]
  · rfl

theorem store_turn_buffer_length (cfg : HybridMemoryConfig) (st : HybridState)
    (um ar cid : String) (meta : Metadata) (facts : List String)
    (summ : String) (now : Nat) :
    ((store_conversation_turn cfg st um ar cid meta facts summ now).1).recent_buffer.length =
      min (st.recent_buffer.length + 1) cfg.recent_buffer_size := by
  cases facts with
  | nil => rw [store_turn_recent_buffer_nil, dequeAppend_length]
  | cons f fs => rw [store_turn_recent_buffer_cons, dequeAppend_length]

theorem store_turn_attempts (cfg : HybridMemoryConfig) (st : HybridState)
    (um ar cid : String) (meta : Metadata) (facts : List String)
    (summ : String) (now : Nat) :
    ((store_conversation_turn cfg st um ar cid meta facts summ now).1).compaction_attempts =
      st.compaction_attempts +
        (if min (st.recent_buffer.length + 1) cfg.recent_buffer_size =
            cfg.recent_buffer_size then 1 else 0) := by
  cases facts with
  | nil =>
      simp only [store_conversation_turn]
      rw [dequeAppend_length]
      split_ifs with h
      · rw [maybe_summarize_attempts]
      · rfl
  | cons f fs =>
      simp only [store_conversation_turn]
      rw [dequeAppend_length]
      split_ifs with h
      · rw [maybe_summarize_attempts]
      · rfl

theorem iterateStore_spec (n : Nat) :
    (iterateStore n).recent_buffer.length = min n 50 ∧
      (iterateStore n).compaction_attempts = n - 49 := by
  induction n with
  | zero => exact ⟨rfl, rfl⟩
  | succ n ih =>
      obtain ⟨hlen, hatt⟩ := ih
      have hcap : defaultConfig.recent_buffer_size = 50 := rfl
      constructor
      · rw [iterateStore, store_turn_buffer_length, hlen, hcap]
        omega
      · rw [iterateStore, store_turn_attempts, hlen, hatt, hcap]
        split_ifs with h <;> omega

theorem dequeAppend_of_lt {α : Type} (cap : Nat) (b : List α) (x : α)
    (h : b.length + 1 ≤ cap) : dequeAppend cap b x = b ++ [x] := by
  rw [dequeAppend, if_neg]
  simp only [List.length_append, List.length_singleton]
  omega

theorem dequeAppend_of_full {α : Type} (cap : Nat) (b : List α) (x : α)
    (h : b.length = cap) : dequeAppend cap b x = (b ++ [x]).drop 1 := by
  rw [dequeAppend]
  split_ifs with hc
  · congr 1
    simp only [List.length_append, List.length_singleton]
    omega
  · exfalso
    simp only [List.length_append, List.length_singleton] at hc
    omega

theorem foldl_dequeAppend {α : Type} (cap : Nat) :
    ∀ (items : List α) (buf : List α), buf.length ≤ cap →
      items.foldl (dequeAppend cap) buf =
        (buf ++ items).drop (buf.length + items.length - cap) := by
  intro items
  induction items with
  | nil =>
      intro buf hb
      have h0 : buf.length + ([] : List α).length - cap = 0 := by
        simp only [List.length_nil]
        omega
      rw [h0, List.append_nil, List.foldl_nil, List.drop_zero]
  | cons x xs ih =>
      intro buf hb
      rw [List.foldl_cons]
      have hlen : (dequeAppend cap buf x).length = min (buf.length + 1) cap :=
        dequeAppend_length cap buf x
      have hle : (dequeAppend cap buf x).length ≤ cap := by
        rw [hlen]; omega
      rw [ih _ hle]
      by_cases hc : buf.length + 1 ≤ cap
      · rw [dequeAppend_of_lt cap buf x hc]
        have hamt : (buf ++ [x]).length + xs.length - cap =
            buf.length + (x :: xs).length - cap := by
          simp only [List.length_append, List.length_singleton, List.length_cons,
            List.length_nil]
          omega
        rw [hamt, List.append_assoc]
        rfl
      · have hfull : buf.length = cap := by omega
        rw [dequeAppend_of_full cap buf x hfull]
        have h1 : ((buf ++ [x]) ++ xs).drop 1 = (buf ++ [x]).drop 1 ++ xs :=
          List.drop_append_of_le_length
            (by simp only [List.length_append, List.length_singleton]; omega)
        rw [← h1, List.drop_drop]
        have hamt : 1 + (((buf ++ [x]).drop 1).length + xs.length - cap) =
            buf.length + (x :: xs).length - cap := by
          simp only [List.length_drop, List.length_append, List.length_singleton,
            List.length_cons, List.length_nil]
          omega
        rw [hamt, List.append_assoc]
        rfl

def BufferUsersOnly (st : HybridState) : Prop :=
  ∀ i ∈ st.recent_buffer, roleIs i "assistant" = false

def NoCompressedPersisted (st : HybridState) : Prop :=
  ∀ r ∈ st.persisted, r.storage_tier ≠ StorageTier.compressed

theorem store_turn_persisted_nil (cfg : HybridMemoryConfig) (st : HybridState)
    (um ar cid : String) (meta : Metadata) (summ : String) (now : Nat)
    (hbuf : BufferUsersOnly st) :
    ((store_conversation_turn cfg st um ar cid meta [] summ now).1).persisted =
      st.persisted ++ [storeWithTtl (mkRawItem cfg meta um cid now) now] := by
  have hbuf2 : ∀ i ∈ dequeAppend cfg.recent_buffer_size st.recent_buffer
      (mkRawItem cfg meta um cid now), roleIs i "assistant" = false := by
    intro i hi
    rcases List.mem_append.mp (mem_dequeAppend _ _ _ _ hi) with h | h
    · exact hbuf i h
    · rw [List.mem_singleton] at h
      rw [h]
      exact roleIs_mkRawItem cfg meta um cid now
  simp only [store_conversation_turn]
  split_ifs with h
  · rw [maybe_summarize_persisted_of_no_assistant]
    exact hbuf2
  · rfl

theorem store_turn_persisted_cons (cfg : HybridMemoryConfig) (st : HybridState)
    (um ar cid : String) (meta : Metadata) (f : String) (fs : List String)
    (summ : String) (now : Nat) (hbuf : BufferUsersOnly st) :
    ((store_conversation_turn cfg st um ar cid meta (f :: fs) summ now).1).persisted =
      st.persisted ++
        ((f :: fs).map (fun fact => mkFactItem meta fact now)).map
          (fun it => storePermanent it now) := by
  have hbuf2 : ∀ i ∈ dequeAppend cfg.recent_buffer_size st.recent_buffer
      (mkFactItem meta f now), roleIs i "assistant" = false := by
    intro i hi
    rcases List.mem_append.mp (mem_dequeAppend _ _ _ _ hi) with h | h
    · exact hbuf i h
    · rw [List.mem_singleton] at h
      rw [h]
      exact roleIs_mkFactItem meta f now
  simp only [store_conversation_turn]
  split_ifs with h
  · rw [maybe_summarize_persisted_of_no_assistant]
    exact hbuf2
  · rfl

theorem applyOp_preserves (cfg : HybridMemoryConfig) (st : HybridState)
    (op : HybridOp) (h1 : BufferUsersOnly st) (h2 : NoCompressedPersisted st) :
    BufferUsersOnly (applyOp cfg st op) ∧ NoCompressedPersisted (applyOp cfg st op) := by
  cases op with
  | storeTurn um ar cid meta facts summ now =>
      constructor
      · intro i hi
        cases facts with
        | nil =>
            rw [applyOp, store_turn_recent_buffer_nil] at hi
            rcases List.mem_append.mp (mem_dequeAppend _ _ _ _ hi) with h | h
            · exact h1 i h
            · rw [List.mem_singleton] at h
              rw [h]
              exact roleIs_mkRawItem cfg meta um cid now
        | cons f fs =>
            rw [applyOp, store_turn_recent_buffer_cons] at hi
            rcases List.mem_append.mp (mem_dequeAppend _ _ _ _ hi) with h | h
            · exact h1 i h
            · rw [List.mem_singleton] at h
              rw [h]
              exact roleIs_mkFactItem meta f now
      · intro r hr
        cases facts with
        | nil =>
            rw [applyOp, store_turn_persisted_nil cfg st um ar cid meta summ now h1] at hr
            rcases List.mem_append.mp hr with h | h
            · exact h2 r h
            · rw [List.mem_singleton] at h
              rw [h]
              simp [storeWithTtl, storePermanent, mkRawItem]
        | cons f fs =>
            rw [applyOp,
              store_turn_persisted_cons cfg st um ar cid meta f fs summ now h1] at hr
            rcases List.mem_append.mp hr with h | h
            · exact h2 r h
            · rw [List.mem_map] at h
              obtain ⟨it, hit, hrec⟩ := h
              rw [List.mem_map] at hit
              obtain ⟨fact, hfact, hitem⟩ := hit
              rw [← hrec, ← hitem]
              simp [storePermanent, mkFactItem]
  | saveAiResponse ar cid um meta now =>
      constructor
      · intro i hi
        exact h1 i hi
      · intro r hr
        rcases List.mem_append.mp hr with h | h
        · exact h2 r h
        · rw [List.mem_singleton] at h
          rw [h]
          simp [storePermanent]

theorem mem_insertByKey (x y : RetrievedMemory) (l : List RetrievedMemory) :
    y ∈ insertByKey x l ↔ y = x ∨ y ∈ l := by
  induction l with
  | nil => simp [insertByKey]
  | cons z zs ih =>
      rw [insertByKey]
      split_ifs with h
      · rw [List.mem_cons, ih, List.mem_cons]
        tauto
      · simp [List.mem_cons]

theorem mem_foldl_insertByKey (l : List RetrievedMemory) :
    ∀ acc y, (y ∈ l.foldl (fun acc x => insertByKey x acc) acc) ↔
      y ∈ acc ∨ y ∈ l := by
  induction l with
  | nil =>
      intro acc y
      simp
  | cons x xs ih =>
      intro acc y
      rw [List.foldl_cons, ih, mem_insertByKey, List.mem_cons]
      tauto

theorem mem_sortByKeyDesc (l : List RetrievedMemory) (y : RetrievedMemory) :
    y ∈ sortByKeyDesc l ↔ y ∈ l := by
  rw [sortByKeyDesc, mem_foldl_insertByKey]
  simp

theorem countP_insertByKey (p : RetrievedMemory → Bool) (x : RetrievedMemory)
    (l : List RetrievedMemory) :
    (insertByKey x l).countP p = l.countP p + (if p x then 1 else 0) := by
  induction l with
  | nil =>
      by_cases hx : p x <;> simp [insertByKey, List.countP_cons, hx]
  | cons z zs ih =>
      by_cases h : sortKeyGe z x = true
      · rw [insertByKey, if_pos h]
        by_cases hx : p x <;> by_cases hz : p z <;>
          simp [List.countP_cons, hx, hz, ih] <;> omega
      · rw [insertByKey, if_neg h]
        by_cases hx : p x <;> by_cases hz : p z <;>
          simp [List.countP_cons, hx, hz] <;> omega

theorem countP_sortByKeyDesc (p : RetrievedMemory → Bool)
    (l : List RetrievedMemory) :
    (sortByKeyDesc l).countP p = l.countP p := by
  have haux : ∀ (l : List RetrievedMemory) (acc : List RetrievedMemory),
      (l.foldl (fun acc x => insertByKey x acc) acc).countP p =
        acc.countP p + l.countP p := by
    intro l
    induction l with
    | nil =>
        intro acc
        simp
    | cons x xs ih =>
        intro acc
        rw [List.foldl_cons, ih, countP_insertByKey, List.countP_cons]
        by_cases hx : p x <;> simp [hx] <;> omega
  rw [sortByKeyDesc, haux]
  simp

theorem bufferHit_source (q : String) (cid : Option String)
    (item : HybridMemoryItem) (r : RetrievedMemory)
    (h : bufferHit q cid item = some r) : r.source = "recent" := by
  rw [bufferHit] at h
  split_ifs at h
  all_goals try exact Option.noConfusion h
  all_goals
    have he := Option.some.inj h
    subst he
    rfl

theorem permRecord_spec (cfg : HybridMemoryConfig) (now : Nat)
    (m : PineconeMatch) (r : RetrievedMemory)
    (h : permRecord cfg now m = some r) :
    r.source = "permanent" ∧ r.id = some m.id ∧ r.content = m.content ∧
      ∀ t, m.ttl = some t → ¬ t < now := by
  rw [permRecord] at h
  split_ifs at h with h1 h2 h3
  all_goals try exact Option.noConfusion h
  all_goals
    have he := Option.some.inj h
    subst he
    refine ⟨rfl, rfl, rfl, ?_⟩
    intro t ht hlt
    apply h2
    rw [ht]
    simpa using hlt

theorem pineconeQuery_subset (index : List PineconeMatch)
    (filt : Option (List String)) (k : Nat) (m : PineconeMatch)
    (h : m ∈ pineconeQuery index filt k) : m ∈ index := by
  rw [pineconeQuery.eq_def] at h
  cases filt with
  | none => exact List.take_subset _ _ h
  | some cs =>
      exact List.mem_of_mem_filter (List.take_subset _ _ h)

def sampleMatch : PineconeMatch :=
  { id := "pid"
    score := mkRat 9 10
    content := "ciao mondo"
    timestamp := 0
    conversation_id := "conv"
    message_type := "chat"
    importance := "high"
    storage_tier := "medium"
    ttl := none
    testFlag := false
    metadata := [] }

def sampleOther : PineconeMatch :=
  { sampleMatch with id := "pid2", conversation_id := "other" }

def sampleMatchHit : RetrievedMemory :=
  { id := some "pid"
    content := "ciao mondo"
    score := mkRat 9 10
    timestamp := 0
    conversation_id := "conv"
    message_type := "chat"
    importance := "high"
    storage_tier := "medium"
    source := "permanent"
    metadata := [] }

def sampleItems : List HybridMemoryItem :=
  [mkRawItem defaultConfig [] "a" "c" 0,
   mkRawItem defaultConfig [] "b" "c" 1,
   mkRawItem defaultConfig [] "cc" "c" 2]

/-- C1 (amended): for MemoryService._make_memory_id the persisted
identifier is a deterministic function of (kind, scope, normalized
content): contents equal after normalization receive the same id.  The
hybrid service refutes the original claim as stated, because
_generate_memory_id also hashes the current instant (counterexample
below). -/
theorem C1_make_memory_id_deterministic (kind scope c1 c2 : String)
    (h : normalize_text c1 = normalize_text c2) :
    make_memory_id kind c1 scope = make_memory_id kind c2 scope := by
  rw [make_memory_id, make_memory_id, h]

/-- C1 witness: "  Ciao" and "ciao" normalize identically and receive
the same deterministic id. -/
theorem C1_witness :
    make_memory_id "chat" "  Ciao" "global" =
      make_memory_id "chat" "ciao" "global" :=
  C1_make_memory_id_deterministic "chat" "global" "  Ciao" "ciao" (by decide)

/-- C1 counterexample: HybridMemoryService._generate_memory_id mixes
datetime.now() into the hash input, so two stores of the same (content,
scope, tier) at different instants receive different ids: the id is not
a function of (kind, scope, normalized content) only, and re-submitting
identical content creates a second item instead of overwriting. -/
theorem C1_counterexample :
    generate_memory_id "mi piace il caffe" "conv" "medium" 0 ≠
      generate_memory_id "mi piace il caffe" "conv" "medium" 1 := by
  decide

/-- C2 (amended): compaction is level-triggered, not edge-triggered:
starting from an empty buffer of capacity 50, a compaction attempt runs
on the insert that fills the buffer and again on every subsequent
insert while it stays full — after n automatic stores exactly n - 49
attempts have run (0 before the 50th insert, 1 at the 50th, 2 at the
51st, and so on). -/
theorem C2_compaction_level_triggered (n : Nat) :
    (iterateStore n).compaction_attempts = n - 49 :=
  (iterateStore_spec n).2

/-- C2 counterexample: on the 51st insert the buffer is still at
capacity and a second compaction attempt runs, refuting "exactly once,
and not again on subsequent inserts while the buffer remains full". -/
theorem C2_counterexample :
    (iterateStore 51).compaction_attempts = 2 ∧
      (iterateStore 51).compaction_attempts ≠ 1 := by
  have h := (iterateStore_spec 51).2
  rw [h]
  constructor
  · decide
  · decide

/-- C3 (amended): when fact extraction returns no triples (including on
extraction errors) the turn is persisted as exactly one new record built
from the raw turn, with storage tier medium_term and ttl = now + 30
days; its importance however is the constant medium — the Importance
Classifier is not consulted on this path (counterexample below). -/
theorem C3_store_no_facts_single_medium_term (cfg : HybridMemoryConfig)
    (st : HybridState) (um ar cid : String) (meta : Metadata) (summ : String)
    (now : Nat) (hbuf : BufferUsersOnly st) :
    (store_conversation_turn cfg st um ar cid meta [] summ now).1.persisted =
      st.persisted ++ [storeWithTtl (mkRawItem cfg meta um cid now) now] ∧
      (storeWithTtl (mkRawItem cfg meta um cid now) now).content = um ∧
      (storeWithTtl (mkRawItem cfg meta um cid now) now).storage_tier =
        StorageTier.medium_term ∧
      (storeWithTtl (mkRawItem cfg meta um cid now) now).ttl =
        some (now + cfg.medium_term_ttl_days * daySeconds) ∧
      (storeWithTtl (mkRawItem cfg meta um cid now) now).importance =
        ImportanceLevel.medium :=
  ⟨store_turn_persisted_nil cfg st um ar cid meta summ now hbuf, rfl, rfl, rfl, rfl⟩

/-- C3 witness: a fresh service storing "va bene" with no extracted
facts persists exactly the single medium-term record. -/
theorem C3_witness :
    (store_conversation_turn defaultConfig initState "va bene" "reply" "conv"
        [] [] "" 0).1.persisted =
      initState.persisted ++
        [storeWithTtl (mkRawItem defaultConfig [] "va bene" "conv" 0) 0] ∧
      (storeWithTtl (mkRawItem defaultConfig [] "va bene" "conv" 0) 0).content =
        "va bene" ∧
      (storeWithTtl (mkRawItem defaultConfig [] "va bene" "conv" 0) 0).storage_tier =
        StorageTier.medium_term ∧
      (storeWithTtl (mkRawItem defaultConfig [] "va bene" "conv" 0) 0).ttl =
        some (0 + defaultConfig.medium_term_ttl_days * daySeconds) ∧
      (storeWithTtl (mkRawItem defaultConfig [] "va bene" "conv" 0) 0).importance =
        ImportanceLevel.medium :=
  C3_store_no_facts_single_medium_term defaultConfig initState "va bene" "reply"
    "conv" [] "" 0 (fun i hi => absurd hi (List.not_mem_nil i))

/-- C3 counterexample: for "ok" the classifier returns level low, yet
the no-facts store path persists the turn with importance medium: the
stored importance is not the level returned by the classifier. -/
theorem C3_counterexample :
    (classify "ok").1 = ImportanceLevel.low ∧
      ((store_conversation_turn defaultConfig initState "ok" "reply" "conv"
          [] [] "" 0).1.persisted.map (fun r => r.importance)) =
        [ImportanceLevel.medium] ∧
      ImportanceLevel.medium ≠ ImportanceLevel.low := by
  refine ⟨by decide, by decide, by decide⟩

/-- C4 (amended): the persistent-store path of retrieve_memories never
returns an expired item: every returned record with source "permanent"
stems from an index match whose ttl, when present, has not passed.  The
recency-buffer path applies no ttl check, so the original claim fails
there (counterexample below). -/
theorem C4_permanent_path_excludes_expired (cfg : HybridMemoryConfig)
    (buf : List HybridMemoryItem) (query : String) (cid : Option String)
    (limit : Nat) (inc : Bool) (index : List PineconeMatch) (now : Nat)
    (r : RetrievedMemory)
    (hr : r ∈ retrieve_memories cfg buf query cid limit inc index now)
    (hsrc : r.source = "permanent") :
    ∃ m, m ∈ index ∧ r.id = some m.id ∧ r.content = m.content ∧
      ∀ t, m.ttl = some t → ¬ t < now := by
  rw [retrieve_memories] at hr
  have hr2 := List.take_subset _ _ hr
  rw [merged_memories, mem_sortByKeyDesc] at hr2
  rcases List.mem_append.mp hr2 with h | h
  · exfalso
    cases inc with
    | false => simp at h
    | true =>
        simp only [if_pos] at h
        rw [search_recent_buffer] at h
        obtain ⟨item, hitem, hhit⟩ := List.mem_filterMap.mp h
        have hrec := bufferHit_source query cid item r hhit
        rw [hrec] at hsrc
        exact absurd hsrc (by decide)
  · rw [filter_permanent_matches] at h
    obtain ⟨m, hm, hrec⟩ := List.mem_filterMap.mp h
    obtain ⟨hsrc2, hid, hcont, httl⟩ := permRecord_spec cfg now m r hrec
    exact ⟨m, pineconeQuery_subset _ _ _ _ hm, hid, hcont, httl⟩

/-- C4 witness: a live permanent match is returned and its ttl
obligation holds. -/
theorem C4_witness :
    ∃ m, m ∈ [sampleMatch] ∧ sampleMatchHit.id = some m.id ∧
      sampleMatchHit.content = m.content ∧ ∀ t, m.ttl = some t → ¬ t < 0 :=
  C4_permanent_path_excludes_expired defaultConfig [] "ciao" (some "conv") 20
    true [sampleMatch] 0 sampleMatchHit (by decide) (by decide)

/-- C4 counterexample: the raw turn stored at tick 0 sits in the recency
buffer with ttl = 2592000, yet long after that instant a matching query
still returns it from the buffer — the buffer search never checks ttl. -/
theorem C4_counterexample :
    ((store_conversation_turn defaultConfig initState "caffe buono" "reply"
        "conv" [] [] "" 0).1.recent_buffer.map (fun i => i.ttl)) =
      [some 2592000] ∧
      2592000 < 999999999 ∧
      ((retrieve_memories defaultConfig
          (store_conversation_turn defaultConfig initState "caffe buono"
            "reply" "conv" [] [] "" 0).1.recent_buffer
          "caffe" (some "conv") 20 true [] 999999999).map
        (fun r => (r.content, r.source))) = [("caffe buono", "recent")] := by
  refine ⟨by decide, by decide, by decide⟩

/-- C5 (amended): when a nonempty conversation id is supplied, the
similarity query against the persistent store is restricted to matches
whose conversation id is the given one or "global".  When no
conversation id is given the query is unrestricted — no filter is
applied, not a "global"-only one (counterexample below). -/
theorem C5_query_restricted_with_conversation (index : List PineconeMatch)
    (cid : String) (k : Nat) (m : PineconeMatch) (hcid : cid ≠ "")
    (hm : m ∈ pineconeQuery index (pineconeFilter (some cid)) k) :
    m.conversation_id = cid ∨ m.conversation_id = "global" := by
  simp only [pineconeFilter, if_neg hcid] at hm
  rw [pineconeQuery.eq_def] at hm
  have hm2 := List.take_subset _ _ hm
  have hp := List.of_mem_filter hm2
  simp at hp
  exact hp

/-- C5 witness: a match surviving the filtered query indeed belongs to
the conversation or to the global scope. -/
theorem C5_witness :
    sampleMatch.conversation_id = "conv" ∨
      sampleMatch.conversation_id = "global" :=
  C5_query_restricted_with_conversation [sampleMatch] "conv" 40 sampleMatch
    (by decide) (by decide)

/-- C5 counterexample: with no conversation id the code builds no filter
at all, and retrieval returns an item whose conversation id is neither
the (absent) id nor "global" — the query is unrestricted rather than
restricted to "global". -/
theorem C5_counterexample :
    pineconeFilter none = none ∧
      ((retrieve_memories defaultConfig [] "ciao" none 20 true [sampleOther]
          0).map (fun r => r.conversation_id)) = ["other"] ∧
      ("other" : String) ≠ "global" := by
  refine ⟨rfl, by decide, by decide⟩

/-- C6: over every sequence of service operations (automatic stores with
arbitrary extraction results and manual assistant saves), no record with
the compressed tier is ever persisted: only user-authored items enter
the recency buffer, so the compactor pairing never finds a user and
assistant exchange and the at-least-5-exchanges condition never holds. -/
theorem C6_no_compressed_persisted (cfg : HybridMemoryConfig)
    (ops : List HybridOp) (r : PersistedRecord)
    (hr : r ∈ (runOps cfg ops).persisted) :
    r.storage_tier ≠ StorageTier.compressed := by
  suffices h : BufferUsersOnly (runOps cfg ops) ∧
      NoCompressedPersisted (runOps cfg ops) by
    exact h.2 r hr
  rw [runOps]
  have haux : ∀ (l : List HybridOp) (st : HybridState),
      BufferUsersOnly st ∧ NoCompressedPersisted st →
        BufferUsersOnly (l.foldl (applyOp cfg) st) ∧
          NoCompressedPersisted (l.foldl (applyOp cfg) st) := by
    intro l
    induction l with
    | nil =>
        intro st h
        exact h
    | cons op l ih =>
        intro st h
        rw [List.foldl_cons]
        exact ih _ (applyOp_preserves cfg st op h.1 h.2)
  exact haux ops initState
    ⟨fun i hi => absurd hi (List.not_mem_nil i),
     fun p hp => absurd hp (List.not_mem_nil p)⟩

/-- C6 witness: the record persisted by a concrete automatic store is
not compressed. -/
theorem C6_witness :
    (storeWithTtl (mkRawItem defaultConfig [] "hi" "conv" 0) 0).storage_tier ≠
      StorageTier.compressed :=
  C6_no_compressed_persisted defaultConfig
    [HybridOp.storeTurn "hi" "re" "conv" [] [] "" 0]
    (storeWithTtl (mkRawItem defaultConfig [] "hi" "conv" 0) 0) (by decide)

/-- C7 (amended): retrieve_memories applies no content deduplication:
in the merged two-source list each canonical text occurs once per
source occurrence, i.e. the number of entries with a given content is
the sum of the counts contributed by the recency-buffer search and by
the filtered persistent matches; the same text present in both sources
is therefore returned twice (counterexample below). -/
theorem C7_merge_counts_add (cfg : HybridMemoryConfig)
    (buf : List HybridMemoryItem) (query : String) (cid : Option String)
    (limit : Nat) (inc : Bool) (index : List PineconeMatch) (now : Nat)
    (x : String) :
    ((merged_memories cfg buf query cid limit inc index now).filter
        (fun r => r.content == x)).length =
      ((if inc then search_recent_buffer buf query cid else []).filter
          (fun r => r.content == x)).length +
        ((filter_permanent_matches cfg
            (pineconeQuery index (pineconeFilter cid) (min (limit * 2) 100))
            now).filter (fun r => r.content == x)).length := by
  rw [merged_memories]
  rw [← List.countP_eq_length_filter, ← List.countP_eq_length_filter,
    ← List.countP_eq_length_filter]
  rw [countP_sortByKeyDesc, List.countP_append]

/-- C7 counterexample: the text "ciao mondo" is present both in the
recency buffer and in the persistent store; the list returned by
retrieve_memories contains it twice, not once. -/
theorem C7_counterexample :
    ((retrieve_memories defaultConfig
        (store_conversation_turn defaultConfig initState "ciao mondo" "reply"
          "conv" [] [] "" 0).1.recent_buffer
        "mondo" (some "conv") 20 true [sampleMatch] 5).filter
      (fun r => r.content == "ciao mondo")).length = 2 := by
  decide

/-- C8: the classifier is a pure function of the text whose final score
lies in [0,1], and the returned level is high exactly when the score is
at least 0.7, medium exactly when it is at least 0.4 and below 0.7, and
low exactly when it is below 0.4. -/
theorem C8_classifier_range_and_levels (msg : String) :
    0 ≤ (classify msg).2 ∧ (classify msg).2 ≤ 1 ∧
      ((classify msg).1 = ImportanceLevel.high ↔
        mkRat 7 10 ≤ (classify msg).2) ∧
      ((classify msg).1 = ImportanceLevel.medium ↔
        mkRat 4 10 ≤ (classify msg).2 ∧ (classify msg).2 < mkRat 7 10) ∧
      ((classify msg).1 = ImportanceLevel.low ↔
        (classify msg).2 < mkRat 4 10) := by
  have h := classifyLevel_iff msg
  exact ⟨classifyScore_nonneg msg, classifyScore_le_one msg, h.1, h.2.1, h.2.2⟩

/-- C9 (amended): appending a personal-disclosure clause (one matching
the personal pattern group) never lowers the classifier score, provided
the addition does not introduce a low-value/filler match absent from
the original text; without that proviso the short-message dampening can
lower the score (counterexample below). -/
theorem C9_classifier_monotone_personal_clause (orig clause : String)
    (hpers : anyMatch personalPatterns (lowerData clause) = true)
    (hlow : anyMatch lowPatterns (lowerData (orig ++ " " ++ clause)) = true →
      anyMatch lowPatterns (lowerData orig) = true) :
    classifyScore orig ≤ classifyScore (orig ++ " " ++ clause) := by
  have hwc : wordCount orig ≤ wordCount (orig ++ " " ++ clause) := by
    rw [wordCount_append]
    omega
  have hgrp : ∀ ps, anyMatch ps (lowerData orig) = true →
      anyMatch ps (lowerData (orig ++ " " ++ clause)) = true := by
    intro ps h
    rw [lowerData_append]
    exact anyMatch_append ps _ _ h
  have hraw := rawScore_mono orig (orig ++ " " ++ clause)
    (hgrp personalPatterns) (hgrp decisionPatterns)
    (hgrp technicalPatterns) (hgrp questionPatterns)
  have hd := dampedScore_mono orig (orig ++ " " ++ clause) hraw hlow hwc
  exact classifyScore_mono_of_adjusted _ _ (adjustedScore_mono _ _ hd hwc)

/-- C9 witness: appending the personal clause "mi chiamo Sara" to "ciao"
does not lower the score. -/
theorem C9_witness :
    classifyScore "ciao" ≤ classifyScore ("ciao" ++ " " ++ "mi chiamo Sara") :=
  C9_classifier_monotone_personal_clause "ciao" "mi chiamo Sara" (by decide)
    (fun _ => by decide)

/-- C9 counterexample: "ok amo" is a personal-disclosure clause (it
fires the personal group through "amo"), yet appending it to "voglio"
lowers the score from 0.48 to 0.336, because the filler word "ok"
newly triggers the short-message dampening. -/
theorem C9_counterexample :
    anyMatch personalPatterns (lowerData "ok amo") = true ∧
      ¬ classifyScore "voglio" ≤ classifyScore ("voglio" ++ " " ++ "ok amo") := by
  refine ⟨by decide, by decide⟩

/-- C10: the recency buffer deque is bounded with FIFO eviction: pushing
N + k items (k > 0) into an empty buffer of capacity N leaves exactly
the N most recently inserted items in order — the k oldest are dropped
first, with no tier-aware retention. -/
theorem C10_buffer_fifo_bound (N k : Nat) (items : List HybridMemoryItem)
    (hlen : items.length = N + k) (hk : 0 < k) :
    items.foldl (dequeAppend N) [] = items.drop k ∧
      (items.foldl (dequeAppend N) []).length = N := by
  have h := foldl_dequeAppend N items [] (by simp)
  simp only [List.nil_append, List.length_nil, Nat.zero_add] at h
  constructor
  · rw [h, hlen]
    congr 1
    omega
  · rw [h, List.length_drop, hlen]
    omega

/-- C10 witness: three raw items through a capacity-2 deque keep the two
most recent. -/
theorem C10_witness :
    sampleItems.foldl (dequeAppend 2) [] = sampleItems.drop 1 ∧
      (sampleItems.foldl (dequeAppend 2) []).length = 2 :=
  C10_buffer_fifo_bound 2 1 sampleItems (by decide) (by decide)

end ChatbotMemory
